import Mathlib

/-!
# Verification of the WebScraperDesktop crawl core

Shallow embedding of the scraping engine of this repository:

* `src/scraper/sites/base_scraper.py` — `BaseScraper` (orchestration loop,
  `get_all_product_links`, `parse_price`, `parse_rating`),
* `src/scraper/sites/books_toscrape.py` and `src/scraper/sites/quotes_toscrape.py`
  — the two shipped adapters,
* `src/scraper/scraper_engine.py` — `RateLimiter`, `ProxyRotator`,
* `src/data/data_processor.py` — `DataProcessor._parse_price`, `_parse_rating`.

Conventions of the embedding:

* Strings are `List Char`; Python `str.strip` / `str.lower` are modelled on the
  ASCII whitespace/letter ranges actually exercised by the code.
* The Python `re` searches used by the parsers are modelled by a small
  backtracking matcher (`matchSeq`/`searchPat`) implementing `re.search`
  semantics for the exact pattern shapes appearing in the source: leftmost
  start position wins, greedy character-class quantifiers with backtracking,
  one capture group per pattern, optional case-insensitivity for literals.
* Python floats are modelled as exact rationals `ℚ`; `float(...)` applied to
  the digit/dot strings produced by the capture groups is `pyFloatDD`.
* Wall-clock time is `ℚ`; `time.sleep` is exact-or-longer (an explicit
  nonnegative slack parameter per call covers scheduling latency).
-/

namespace WS

/-- Python `\s` on the ASCII range: space, tab, newline, carriage return,
vertical tab, form feed. -/
def isWs (c : Char) : Bool :=
  c = ' ' || c = '\t' || c = '\n' || c = '\r' || c = '\x0b' || c = '\x0c'

/-- Python `str.strip()`: remove whitespace from both ends. -/
def pyStrip (s : List Char) : List Char :=
  ((s.dropWhile isWs).reverse.dropWhile isWs).reverse

/-- Python `str.lower()` (ASCII case fold, which covers the inputs used). -/
def pyLower (s : List Char) : List Char := s.map Char.toLower

/-- `\d` character class (ASCII digits). -/
def isDigitCh (c : Char) : Bool := c.isDigit

/-- `[\d,]` character class. -/
def isDigitComma (c : Char) : Bool := c.isDigit || c = ','

/-- `[\d.]` character class. -/
def isDigitDot (c : Char) : Bool := c.isDigit || c = '.'

/-- Currency class of the price patterns: `[\$£€¥]` in `BaseScraper.parse_price`,
`[\$£€¥₹]` in `DataProcessor._parse_price`; the flag selects the rupee variant. -/
def isCurrency (rupee : Bool) (c : Char) : Bool :=
  c = '$' || c = '£' || c = '€' || c = '¥' || (rupee && c = '₹')

/-- Literal `.` in a pattern position (`\.`). -/
def isDot (c : Char) : Bool := c = '.'

/-- Literal `/` in a pattern position. -/
def isSlash (c : Char) : Bool := c = '/'

/-- The optional trailing `s` of `stars?` under `re.IGNORECASE`. -/
def isLetterS (c : Char) : Bool := c.toLower = 's'

/-- One item of a regular expression, restricted to the constructs appearing in
the price/rating patterns of the source: a single character class, greedy
`*`/`+`/`?` over a character class, and a (possibly case-insensitive) literal. -/
inductive RItem where
  | cls  (p : Char → Bool)
  | star (p : Char → Bool)
  | plus (p : Char → Bool)
  | opt  (p : Char → Bool)
  | lit  (l : List Char) (ci : Bool)

/-- Does `l` match a prefix of `s` (case-insensitively when `ci`)? -/
def litPref : List Char → List Char → Bool → Bool
  | [], _, _ => true
  | _ :: _, [], _ => false
  | a :: l, b :: s, ci =>
      (if ci then a.toLower = b.toLower else a = b) && litPref l s ci

/-- Backtracking helper for greedy quantifiers: try consuming `j` characters
first (the greedy choice), then successively fewer, calling continuation `k`
on the remainder; first success wins. -/
def tryDrops (k : List Char → Option α) (s : List Char) : ℕ → Option α
  | 0 => k s
  | j + 1 => (k (s.drop (j + 1))) <|> tryDrops k s j

/-- Match a sequence of items against a prefix of `s`, in continuation-passing
style; `k` receives the unconsumed suffix.  Greedy quantifiers try the longest
run first and backtrack, mirroring Python `re` semantics. -/
def matchSeq : List RItem → List Char → (List Char → Option α) → Option α
  | [], s, k => k s
  | .cls p :: rest, s, k =>
      match s with
      | [] => none
      | c :: s' => if p c then matchSeq rest s' k else none
  | .star p :: rest, s, k =>
      tryDrops (fun s' => matchSeq rest s' k) s (s.takeWhile p).length
  | .plus p :: rest, s, k =>
      match s with
      | [] => none
      | c :: s' =>
          if p c then tryDrops (fun s'' => matchSeq rest s'' k) s' (s'.takeWhile p).length
          else none
  | .opt p :: rest, s, k =>
      match s with
      | [] => matchSeq rest s k
      | c :: s' =>
          if p c then (matchSeq rest s' k) <|> (matchSeq rest s k)
          else matchSeq rest s k
  | .lit l ci :: rest, s, k =>
      if litPref l s ci then matchSeq rest (s.drop l.length) k else none

/-- A pattern with exactly one capture group: items before the group, the group
items, and items after the group.  All source patterns have this shape. -/
structure Pat where
  pre  : List RItem
  grp  : List RItem
  post : List RItem

/-- Try to match pattern `pt` anchored at the start of `s`; on success return
the text captured by the group. -/
def searchAt (pt : Pat) (s : List Char) : Option (List Char) :=
  matchSeq pt.pre s fun s1 =>
    matchSeq pt.grp s1 fun s2 =>
      matchSeq pt.post s2 fun _ =>
        some (s1.take (s1.length - s2.length))

/-- `re.search`: scan start positions left to right, return the group of the
first (leftmost) match. -/
def searchPat (pt : Pat) : List Char → Option (List Char)
  | [] => searchAt pt []
  | c :: s' => (searchAt pt (c :: s')) <|> searchPat pt s'

/-- The shared capture group of all three price patterns: `([\d,]+\.?\d*)`. -/
def priceGrp : List RItem := [.plus isDigitComma, .opt isDot, .star isDigitCh]

/-- `[\$£€¥]\s*([\d,]+\.?\d*)` (with `₹` when `ru`). -/
def pricePat1 (ru : Bool) : Pat := ⟨[.cls (isCurrency ru), .star isWs], priceGrp, []⟩

/-- `([\d,]+\.?\d*)\s*[\$£€¥]` (with `₹` when `ru`). -/
def pricePat2 (ru : Bool) : Pat := ⟨[], priceGrp, [.star isWs, .cls (isCurrency ru)]⟩

/-- `([\d,]+\.?\d*)`. -/
def pricePat3 : Pat := ⟨[], priceGrp, []⟩

/-- The ordered price pattern list of both sources (rupee flag selects which). -/
def pricePats (ru : Bool) : List Pat := [pricePat1 ru, pricePat2 ru, pricePat3]

/-- `([\d.]+)\s*out\s*of\s*[\d.]+` under `re.IGNORECASE`. -/
def ratPat1 : Pat :=
  ⟨[], [.plus isDigitDot],
   [.star isWs, .lit ['o', 'u', 't'] true, .star isWs, .lit ['o', 'f'] true,
    .star isWs, .plus isDigitDot]⟩

/-- `([\d.]+)\s*/\s*[\d.]+`. -/
def ratPat2 : Pat :=
  ⟨[], [.plus isDigitDot], [.star isWs, .cls isSlash, .star isWs, .plus isDigitDot]⟩

/-- `([\d.]+)\s*stars?` under `re.IGNORECASE`. -/
def ratPat3 : Pat :=
  ⟨[], [.plus isDigitDot],
   [.star isWs, .lit ['s', 't', 'a', 'r'] true, .opt isLetterS]⟩

/-- `Rating:\s*([\d.]+)` under `re.IGNORECASE`. -/
def ratPat4 : Pat :=
  ⟨[.lit ['R', 'a', 't', 'i', 'n', 'g', ':'] true, .star isWs], [.plus isDigitDot], []⟩

/-- `([\d.]+)`. -/
def ratPat5 : Pat := ⟨[], [.plus isDigitDot], []⟩

/-- The ordered rating pattern list, identical character for character in
`BaseScraper.parse_rating` and `DataProcessor._parse_rating`. -/
def ratingPats : List Pat := [ratPat1, ratPat2, ratPat3, ratPat4, ratPat5]

/-- Value of a digit list read in base 10. -/
def digitsVal (l : List Char) : ℕ :=
  l.foldl (fun a c => 10 * a + (c.toNat - 48)) 0

/-- Python `float(str)` restricted to the digit/dot strings produced by the
capture groups (after comma removal): defined iff there is at least one digit
and at most one dot; the value is read as a decimal. -/
def pyFloatDD (l : List Char) : Option ℚ :=
  if l.all isDigitDot && decide (l.count '.' ≤ 1) && l.any (·.isDigit) then
    some ((digitsVal (l.takeWhile fun c => ¬ (c = '.')) : ℚ) +
      (digitsVal ((l.dropWhile fun c => ¬ (c = '.')).drop 1) : ℚ) /
        (10 : ℚ) ^ ((l.dropWhile fun c => ¬ (c = '.')).drop 1).length)
  else none

/-- The `for pattern in price_patterns` loop shared by both price parsers:
search each pattern in order; on a match whose group parses as a float (after
comma removal) return it, otherwise continue with the next pattern. -/
def tryPriceVal : List Pat → List Char → Option ℚ
  | [], _ => none
  | p :: ps, t =>
      match searchPat p t with
      | some g =>
          match pyFloatDD (g.filter fun c => ¬ (c = ',')) with
          | some v => some v
          | none => tryPriceVal ps t
      | none => tryPriceVal ps t

/-- The `for pattern in rating_patterns` loop shared by both rating parsers,
returning the raw float of the first pattern whose match parses. -/
def tryRatingVal : List Pat → List Char → Option ℚ
  | [], _ => none
  | p :: ps, t =>
      match searchPat p t with
      | some g =>
          match pyFloatDD g with
          | some v => some v
          | none => tryRatingVal ps t
      | none => tryRatingVal ps t

namespace BaseScraper

/-- `BaseScraper.parse_price`: empty (falsy) input yields `None`; otherwise
strip and run the three patterns (no `₹` in the currency class). -/
def parse_price (s : List Char) : Option ℚ :=
  if s = [] then none
  else tryPriceVal (pricePats false) (pyStrip s)

/-- The rating rescale of `BaseScraper.parse_rating`: divide by 2 when the raw
value exceeds 5 ("assume 10-star scale"), then cap at 5.  There is no
divide-by-20 branch in this source function. -/
def rescale (v : ℚ) : ℚ := min (if 5 < v then v / 2 else v) 5

/-- `BaseScraper.parse_rating`: empty (falsy) input yields `None`; otherwise
strip, try the five patterns in order, rescale the first parsed value. -/
def parse_rating (s : List Char) : Option ℚ :=
  if s = [] then none
  else (tryRatingVal ratingPats (pyStrip s)).map rescale

end BaseScraper

namespace DataProcessor

/-- `DataProcessor._parse_price`: strip; map `'free'/'0'/'0.00'/''`
(case-insensitively) to `0.0`; otherwise run the three patterns with the
`₹`-extended currency class. -/
def parse_price (s : List Char) : Option ℚ :=
  let t := pyStrip s
  if pyLower t = ['f', 'r', 'e', 'e'] ∨ pyLower t = ['0'] ∨
     pyLower t = ['0', '.', '0', '0'] ∨ pyLower t = [] then some 0
  else tryPriceVal (pricePats true) t

/-- The rating rescale of `DataProcessor._parse_rating`: divide by 20 above 10
("100-point scale"), else by 2 above 5, then clamp into `[0, 5]`. -/
def rescale (v : ℚ) : ℚ :=
  min (max (if 10 < v then v / 20 else if 5 < v then v / 2 else v) 0) 5

/-- `DataProcessor._parse_rating`: strip, try the same five patterns in order,
rescale the first parsed value. -/
def parse_rating (s : List Char) : Option ℚ :=
  (tryRatingVal ratingPats (pyStrip s)).map rescale

end DataProcessor

/-! ## RateLimiter (`scraper_engine.py`, class `RateLimiter`) -/

/-- State of one `RateLimiter`: the `request_times` queue (front = oldest
insertion), the list of all timestamps ever recorded (kept for specification
purposes), and `last_request_time`. -/
structure RLState where
  queue : List ℚ
  recs  : List ℚ
  last  : ℚ

/-- `RateLimiter.__init__`: empty queue, `last_request_time = 0`. -/
def initRL : RLState := ⟨[], [], 0⟩

/-- Inputs of one `wait()` call: `t` is the value of `time.time()` at entry
(`current_time`), `d` the sampled `random.uniform(min_delay, max_delay)`, and
`s` the nonnegative scheduling slack — extra wall time elapsed beyond the
requested sleeps before the final `time.time()` is read. -/
structure StepIn where
  t : ℚ
  d : ℚ
  s : ℚ

/-- The pruning loop of `wait()`: entries are popped from the front while they
are at least 60 seconds old (`current_time - old_time < 60` fails); the first
younger entry found is re-enqueued — at the BACK of the queue. -/
def prune (θ : ℚ) (q : List ℚ) : List ℚ :=
  match q.dropWhile (fun x => decide (x ≤ θ)) with
  | [] => []
  | g :: w => w ++ [g]

/-- Time reached after the rate-limit sleep of `wait()`: when the pruned queue
has reached the cap and `sleep_time = 60 - (current_time - queue[0])` is
positive, sleep exactly that long.  (`headD 0` stands for `queue[0]`; with
`N = 0` and an empty queue the source raises `IndexError`, so the theorems
assume `1 ≤ N`, under which the default is never read.) -/
def sleepTarget (N : ℕ) (t : ℚ) (q1 : List ℚ) : ℚ :=
  if N ≤ q1.length ∧ 0 < 60 - (t - q1.headD 0) then t + (60 - (t - q1.headD 0)) else t

/-- The timestamp recorded by one `wait()` call: rate-limit sleep target, plus
the jitter sleep `delay - time_since_last` when `time_since_last < delay`
(computed from the stale `current_time` read at entry), plus the slack. -/
def recTime (N : ℕ) (st : RLState) (a : StepIn) : ℚ :=
  sleepTarget N a.t (prune (a.t - 60) st.queue) +
    (if a.t - st.last < a.d then a.d - (a.t - st.last) else 0) + a.s

/-- One `wait()` call with `requests_per_minute = N`: prune, sleep, record
`time.time()` into both `last_request_time` and the queue. -/
def rlStep (N : ℕ) (st : RLState) (a : StepIn) : RLState :=
  ⟨prune (a.t - 60) st.queue ++ [recTime N st a],
   st.recs ++ [recTime N st a], recTime N st a⟩

/-- Run a finite sequence of `wait()` calls. -/
def runRL (N : ℕ) : RLState → List StepIn → RLState
  | st, [] => st
  | st, a :: rest => runRL N (rlStep N st a) rest

/-- Validity of call inputs: wall time is monotone (each call starts no earlier
than the previous recorded time), the jitter sample lies in
`[min_delay, max_delay]`, and slack is nonnegative. -/
def validSteps (N : ℕ) (minD maxD : ℚ) : RLState → List StepIn → Bool
  | _, [] => true
  | st, a :: rest =>
      decide (st.last ≤ a.t) && decide (minD ≤ a.d) && decide (a.d ≤ maxD) &&
      decide (0 ≤ a.s) && validSteps N minD maxD (rlStep N st a) rest

/-- Number of recorded timestamps inside the trailing window `(θ, θ + 60]`. -/
def windowCount (R : List ℚ) (θ : ℚ) : ℕ :=
  R.countP fun r => decide (θ < r) && decide (r ≤ θ + 60)

/-- Invariant carried across `wait()` calls.  `drp` is the crucial one: at any
future staleness threshold, the queue suffix that survives prefix-pruning has
at most `N` entries. -/
structure RLInv (N : ℕ) (st : RLState) : Prop where
  qle : ∀ x ∈ st.queue, x ≤ st.last
  rle : ∀ r ∈ st.recs, r ≤ st.last
  cnt : ∀ u : ℚ, st.last ≤ u →
      st.recs.countP (fun r => decide (u - 60 < r)) =
      st.queue.countP (fun r => decide (u - 60 < r))
  drp : ∀ u : ℚ, st.last ≤ u →
      (st.queue.dropWhile fun x => decide (x ≤ u - 60)).length ≤ N
  win : ∀ θ : ℚ, windowCount st.recs θ ≤ N

theorem prune_length (θ : ℚ) (q : List ℚ) :
    (prune θ q).length = (q.dropWhile fun x => decide (x ≤ θ)).length := by
  unfold prune
  rcases h : q.dropWhile fun x => decide (x ≤ θ) with _ | ⟨g, w⟩ <;>
    simp [List.length_append]

theorem prune_mem {θ : ℚ} {q : List ℚ} {x : ℚ} (hx : x ∈ prune θ q) : x ∈ q := by
  unfold prune at hx
  rcases h : q.dropWhile fun y => decide (y ≤ θ) with _ | ⟨g, w⟩ <;> rw [h] at hx
  · simp at hx
  · have : x ∈ g :: w := by
      rcases List.mem_append.mp hx with h' | h'
      · exact List.mem_cons_of_mem _ h'
      · simp at h'; simp [h']
    have hsub : List.Sublist (q.dropWhile fun y => decide (y ≤ θ)) q :=
      List.dropWhile_sublist _
    exact hsub.mem (h ▸ this)

theorem prune_countP {θ θ' : ℚ} (hθ : θ ≤ θ') (q : List ℚ) :
    (prune θ q).countP (fun r => decide (θ' < r)) =
    q.countP (fun r => decide (θ' < r)) := by
  have hsplit : (q.takeWhile fun x => decide (x ≤ θ)) ++
      (q.dropWhile fun x => decide (x ≤ θ)) = q :=
    List.takeWhile_append_dropWhile _ _
  have htake : (q.takeWhile fun x => decide (x ≤ θ)).countP
      (fun r => decide (θ' < r)) = 0 := by
    rw [List.countP_eq_zero]
    intro a ha
    have := List.mem_takeWhile_imp ha
    simp only [decide_eq_true_eq] at this ⊢
    exact not_lt.mpr (le_trans this hθ)
  conv_rhs => rw [← hsplit]
  rw [List.countP_append, htake, Nat.zero_add]
  unfold prune
  rcases h : q.dropWhile fun x => decide (x ≤ θ) with _ | ⟨g, w⟩
  · simp
  · rw [List.countP_append, List.countP_cons]
    by_cases hg : θ' < g <;> simp [hg, Nat.add_comm]

theorem countP_le_dropWhile_length (θ : ℚ) (l : List ℚ) :
    l.countP (fun x => decide (θ < x)) ≤
      (l.dropWhile fun x => decide (x ≤ θ)).length := by
  induction l with
  | nil => simp
  | cons a l ih =>
    by_cases h : a ≤ θ
    · rw [List.countP_cons_of_neg, List.dropWhile_cons_of_pos (by simpa using h)]
      · exact ih
      · simpa using not_lt.mpr h
    · rw [List.dropWhile_cons_of_neg (by simpa using h)]
      calc (a :: l).countP (fun x => decide (θ < x)) ≤ (a :: l).length :=
            List.countP_le_length _
        _ = _ := rfl

theorem countP_window_le_countP_gt (θ : ℚ) (l : List ℚ) :
    (l.countP fun r => decide (θ < r) && decide (r ≤ θ + 60)) ≤
      l.countP fun r => decide (θ < r) := by
  apply List.countP_mono_left
  intro a _ h
  simp only [Bool.and_eq_true, decide_eq_true_eq] at h
  simpa using h.1

theorem le_sleepTarget (N : ℕ) (t : ℚ) (q1 : List ℚ) : t ≤ sleepTarget N t q1 := by
  unfold sleepTarget
  split
  · next h => linarith [h.2]
  · exact le_refl _

theorem le_recTime {N : ℕ} {st : RLState} {a : StepIn} (hs : 0 ≤ a.s) :
    a.t ≤ recTime N st a := by
  unfold recTime
  have h1 := le_sleepTarget N a.t (prune (a.t - 60) st.queue)
  split <;> linarith

/-- Preservation of the invariant across one valid `wait()` call. -/
theorem rlStep_inv {N : ℕ} {st : RLState} {a : StepIn}
    (hN : 1 ≤ N) (inv : RLInv N st) (ht : st.last ≤ a.t) (hs : 0 ≤ a.s) :
    RLInv N (rlStep N st a) := by
  have hq1len : (prune (a.t - 60) st.queue).length ≤ N := by
    rw [prune_length]
    exact inv.drp a.t ht
  set q1 := prune (a.t - 60) st.queue with hq1
  set T := recTime N st a with hT
  have htT : a.t ≤ T := le_recTime hs
  have hlastT : st.last ≤ T := le_trans ht htT
  have hstep : rlStep N st a = ⟨q1 ++ [T], st.recs ++ [T], T⟩ := rfl
  rw [hstep]
  -- the crucial bound: the post-queue prunes to at most N at any future time
  have hdrp : ∀ u : ℚ, T ≤ u →
      ((q1 ++ [T]).dropWhile fun x => decide (x ≤ u - 60)).length ≤ N := by
    intro u hu
    rw [List.dropWhile_append]
    split
    · calc ([T].dropWhile fun x => decide (x ≤ u - 60)).length ≤ [T].length :=
            (List.dropWhile_sublist _).length_le
        _ = 1 := rfl
        _ ≤ N := hN
    · next hne =>
      have hsub : (q1.dropWhile fun x => decide (x ≤ u - 60)).length ≤ q1.length :=
        (List.dropWhile_sublist _).length_le
      rw [List.length_append]
      rcases lt_or_eq_of_le hsub with hlt | heq
      · simp only [List.length_cons, List.length_nil]
        omega
      · -- nothing was pruned: the queue front is younger than u - 60
        have hq1eq : q1.dropWhile (fun x => decide (x ≤ u - 60)) = q1 :=
          (List.dropWhile_sublist _).eq_of_length heq
        rcases hq1d : q1 with _ | ⟨f, w⟩
        · rw [hq1d] at hne; simp at hne
        · have hfresh : ¬ (f ≤ u - 60) := by
            intro hf
            have hdeq : (List.dropWhile (fun x => decide (x ≤ u - 60)) (f :: w)) = f :: w :=
              hq1d ▸ hq1eq
            rw [List.dropWhile_cons_of_pos (by simpa using hf)] at hdeq
            have hlen := congrArg List.length hdeq
            have hsubw : List.Sublist (w.dropWhile fun x => decide (x ≤ u - 60)) w :=
              List.dropWhile_sublist _
            have hle := hsubw.length_le
            simp only [List.length_cons] at hlen
            omega
          by_cases hcap : N ≤ q1.length
          · -- the rate sleep ran until f + 60, contradicting f > u - 60 ≥ T - 60
            exfalso
            have hft : 0 < 60 - (a.t - f) := by
              have hau : a.t ≤ u := le_trans htT hu
              have hf : ¬ (f ≤ a.t - 60) := fun h => hfresh (by linarith)
              linarith [not_le.mp hf]
            have ht0v : sleepTarget N a.t q1 = a.t + (60 - (a.t - f)) := by
              unfold sleepTarget
              rw [if_pos]
              · rw [hq1d]; rfl
              · constructor
                · exact hcap
                · rw [hq1d]; simpa using hft
            have hfT : f + 60 ≤ T := by
              rw [hT]
              unfold recTime
              rw [← hq1, ht0v]
              split <;> linarith
            exact hfresh (by linarith)
          · have hdeq : List.dropWhile (fun x => decide (x ≤ u - 60)) (f :: w) = f :: w :=
              hq1d ▸ hq1eq
            rw [hdeq]
            have hwlen : q1.length = w.length + 1 := by rw [hq1d]; rfl
            simp only [List.length_cons, List.length_nil]
            omega
  refine ⟨?_, ?_, ?_, ?_, ?_⟩
  · intro x hx
    rcases List.mem_append.mp hx with h | h
    · exact le_trans (inv.qle x (prune_mem h)) hlastT
    · simp at h; simp [h]
  · intro r hr
    rcases List.mem_append.mp hr with h | h
    · exact le_trans (inv.rle r h) hlastT
    · simp at h; simp [h]
  · intro u hu
    rw [List.countP_append, List.countP_append]
    have h1 : st.recs.countP (fun r => decide (u - 60 < r)) =
        st.queue.countP (fun r => decide (u - 60 < r)) :=
      inv.cnt u (le_trans hlastT hu)
    have h2 : (prune (a.t - 60) st.queue).countP (fun r => decide (u - 60 < r)) =
        st.queue.countP (fun r => decide (u - 60 < r)) :=
      prune_countP (by linarith [le_trans htT hu]) st.queue
    rw [h1, ← h2]
  · exact hdrp
  · intro θ
    unfold windowCount
    rw [List.countP_append]
    by_cases hwin : θ < T ∧ T ≤ θ + 60
    · have hTcnt : [T].countP (fun r => decide (θ < r) && decide (r ≤ θ + 60)) ≤ 1 :=
        List.countP_le_length _
      have hbound : st.recs.countP
          (fun r => decide (θ < r) && decide (r ≤ θ + 60)) ≤ N - 1 := by
        have hm := countP_window_le_countP_gt θ st.recs
        have hcnt := inv.cnt (θ + 60) (by linarith [hwin.2])
        have hpr : (prune (a.t - 60) st.queue).countP (fun r => decide (θ < r)) =
            st.queue.countP (fun r => decide (θ < r)) := by
          have := @prune_countP (a.t - 60) θ
            (by linarith [hwin.1, htT]) st.queue
          exact this
        have hdw := countP_le_dropWhile_length θ q1
        -- the post-step drop bound at u = θ + 60, with T itself fresh there
        have hpost := hdrp (θ + 60) (by linarith [hwin.2])
        have hsplitT : ((q1 ++ [T]).dropWhile fun x => decide (x ≤ θ + 60 - 60)).length =
            (if (q1.dropWhile fun x => decide (x ≤ θ + 60 - 60)).isEmpty
             then ([T].dropWhile fun x => decide (x ≤ θ + 60 - 60)).length
             else (q1.dropWhile fun x => decide (x ≤ θ + 60 - 60)).length + 1) := by
          rw [List.dropWhile_append]
          split <;> simp
        have hθsimp : θ + 60 - 60 = θ := by ring
        rw [hsplitT, hθsimp] at hpost
        split at hpost
        · next hemp =>
          have : (q1.dropWhile fun x => decide (x ≤ θ)).length = 0 := by
            rw [List.isEmpty_iff] at hemp
            simp [hemp]
          have hq1z : q1.countP (fun r => decide (θ < r)) = 0 :=
            Nat.le_zero.mp (this ▸ hdw)
          have : st.recs.countP (fun r => decide (θ < r)) = 0 := by
            have := hcnt
            have hθu : θ + 60 - 60 = θ := by ring
            rw [hθu] at this
            rw [this, ← hpr]
            exact hq1z
          calc st.recs.countP (fun r => decide (θ < r) && decide (r ≤ θ + 60)) ≤
              st.recs.countP (fun r => decide (θ < r)) := hm
            _ = 0 := this
            _ ≤ N - 1 := Nat.zero_le _
        · have hq1b : (q1.dropWhile fun x => decide (x ≤ θ)).length ≤ N - 1 := by omega
          calc st.recs.countP (fun r => decide (θ < r) && decide (r ≤ θ + 60)) ≤
              st.recs.countP (fun r => decide (θ < r)) := hm
            _ = st.queue.countP (fun r => decide (θ < r)) := by
                have hθu : θ + 60 - 60 = θ := by ring
                rw [← hθu]; exact hcnt
            _ = q1.countP (fun r => decide (θ < r)) := hpr.symm
            _ ≤ (q1.dropWhile fun x => decide (x ≤ θ)).length := hdw
            _ ≤ N - 1 := hq1b
      have : [T].countP (fun r => decide (θ < r) && decide (r ≤ θ + 60)) = 1 := by
        simp [List.countP_cons, hwin.1, hwin.2]
      omega
    · have : [T].countP (fun r => decide (θ < r) && decide (r ≤ θ + 60)) = 0 := by
        rw [List.countP_eq_zero]
        intro b hb
        simp at hb
        subst hb
        simp only [Bool.and_eq_true, decide_eq_true_eq]
        intro h
        exact hwin ⟨h.1, h.2⟩
      rw [this]
      simpa using inv.win θ

theorem rlInv_init (N : ℕ) : RLInv N initRL := by
  refine ⟨?_, ?_, ?_, ?_, ?_⟩
  · intro x hx; simp [initRL] at hx
  · intro r hr; simp [initRL] at hr
  · intro u _; rfl
  · intro u _; simp [initRL]
  · intro θ; simp [initRL, windowCount]

theorem rlInv_run {N : ℕ} {minD maxD : ℚ} (hN : 1 ≤ N) :
    ∀ (ins : List StepIn) (st : RLState), RLInv N st →
      validSteps N minD maxD st ins = true → RLInv N (runRL N st ins) := by
  intro ins
  induction ins with
  | nil => intro st inv _; exact inv
  | cons a rest ih =>
    intro st inv hv
    simp only [validSteps, Bool.and_eq_true, decide_eq_true_eq] at hv
    exact ih _ (rlStep_inv hN inv hv.1.1.1.1 hv.1.2) hv.2

/-- C4: with a requests-per-minute cap of `N ≥ 1`, after any finite valid
sequence of `wait()` calls, every trailing 60-second window `(θ, θ + 60]`
contains at most `N` recorded timestamps. -/
theorem rateLimiter_window_cap (N : ℕ) (minD maxD : ℚ) (ins : List StepIn)
    (hN : 1 ≤ N) (hv : validSteps N minD maxD initRL ins = true) (θ : ℚ) :
    windowCount (runRL N initRL ins).recs θ ≤ N :=
  (rlInv_run hN ins initRL (rlInv_init N) hv).win θ

/-- Witness for C4: a concrete valid three-call trace at cap 2, window at 90. -/
theorem rateLimiter_window_cap_witness :
    windowCount (runRL 2 initRL [⟨100, 0, 0⟩, ⟨100, 0, 0⟩, ⟨100, 0, 0⟩]).recs 90 ≤ 2 :=
  rateLimiter_window_cap 2 0 0 [⟨100, 0, 0⟩, ⟨100, 0, 0⟩, ⟨100, 0, 0⟩]
    (by norm_num)
    (by norm_num [validSteps, rlStep, recTime, sleepTarget, prune, initRL]) 90

/-- The most recently recorded timestamp agrees with `last_request_time`. -/
def lastMatches (st : RLState) : Prop :=
  ∀ x, st.recs.getLast? = some x → x = st.last

theorem recTime_gap {N : ℕ} {st : RLState} {a : StepIn} {minD : ℚ}
    (hd : minD ≤ a.d) (_ht : st.last ≤ a.t) (hs : 0 ≤ a.s) :
    st.last + minD ≤ recTime N st a := by
  unfold recTime
  have h1 := le_sleepTarget N a.t (prune (a.t - 60) st.queue)
  split
  · next h => linarith
  · next h =>
    push_neg at h
    linarith

theorem rlGap_run {N : ℕ} {minD maxD : ℚ} :
    ∀ (ins : List StepIn) (st : RLState),
      validSteps N minD maxD st ins = true →
      st.recs.Chain' (fun x y => x + minD ≤ y) → lastMatches st →
      (runRL N st ins).recs.Chain' (fun x y => x + minD ≤ y) := by
  intro ins
  induction ins with
  | nil => intro st _ hc _; exact hc
  | cons a rest ih =>
    intro st hv hc hl
    simp only [validSteps, Bool.and_eq_true, decide_eq_true_eq] at hv
    obtain ⟨⟨⟨⟨ht, hdm⟩, hdM⟩, hs⟩, hrest⟩ := hv
    apply ih (rlStep N st a) hrest
    · show (st.recs ++ [recTime N st a]).Chain' _
      rw [List.chain'_append]
      refine ⟨hc, List.chain'_singleton _, ?_⟩
      intro x hx y hy
      simp only [List.head?_cons, Option.mem_def, Option.some.injEq] at hy
      subst hy
      rw [Option.mem_def] at hx
      rw [hl x hx]
      exact recTime_gap hdm ht hs
    · intro x hx
      show x = recTime N st a
      rw [show (rlStep N st a).recs = st.recs ++ [recTime N st a] from rfl] at hx
      rw [List.getLast?_concat] at hx
      exact ((Option.some.injEq _ _).mp hx).symm

/-- C5: along any valid sequence of `wait()` calls, consecutive recorded
timestamps differ by at least `min_delay` (the floor of the jitter sample). -/
theorem rateLimiter_min_gap (N : ℕ) (minD maxD : ℚ) (ins : List StepIn)
    (hv : validSteps N minD maxD initRL ins = true) :
    (runRL N initRL ins).recs.Chain' (fun x y => minD ≤ y - x) := by
  have h := rlGap_run ins initRL hv (by simp [initRL]) (by intro x hx; simp [initRL] at hx)
  exact h.imp fun x y hxy => by linarith

/-- Witness for C5: the concrete valid trace of the C4 witness. -/
theorem rateLimiter_min_gap_witness :
    (runRL 2 initRL [⟨100, 0, 0⟩, ⟨100, 0, 0⟩, ⟨100, 0, 0⟩]).recs.Chain'
      (fun x y => (0 : ℚ) ≤ y - x) :=
  rateLimiter_min_gap 2 0 0 [⟨100, 0, 0⟩, ⟨100, 0, 0⟩, ⟨100, 0, 0⟩]
    (by norm_num [validSteps, rlStep, recTime, sleepTarget, prune, initRL])

/-! ## ProxyRotator (`scraper_engine.py`, class `ProxyRotator`) -/

/-- State of a `ProxyRotator`: proxy list, `current_proxy_index`, failed set. -/
structure PRState where
  proxy_list : List (List Char)
  idx : ℕ
  failed : List (List Char)

/-- Observable outcome of a `get_proxy()` call: `none` (no proxies
configured), a `{'http': p, 'https': p}` dict, or a deadlock — the call never
returns because `with self.lock` blocks on the non-reentrant lock already
held by the same thread. -/
inductive ProxyResult where
  | none
  | proxy (http https : List Char)
  | deadlock
deriving DecidableEq

/-- The bounded scan of `get_proxy`: `for _ in range(len(proxy_list))`, read
`proxy_list[current_proxy_index]`, advance the index modulo the length, and
return the first proxy not in the failed set; otherwise report the final
index. -/
def scanProxies (l failed : List (List Char)) : ℕ → ℕ → Option (List Char) × ℕ
  | i, 0 => (Option.none, i)
  | i, n + 1 =>
      let p := l.getD i []
      let i' := (i + 1) % l.length
      if p ∈ failed then scanProxies l failed i' n else (some p, i')

/-- `get_proxy` with an explicit count of lock acquisitions still possible
(`threading.Lock` is not reentrant, so each `with self.lock` consumes one and
a call that finds none left blocks forever): an empty proxy list returns
`None` before touching the lock; otherwise acquire the lock and scan; when
every proxy is failed, clear the failed set and retry recursively — with the
lock still held, so the retry has one fewer acquisition available. -/
def getProxyAux : PRState → ℕ → ProxyResult × PRState
  | st, locksFree =>
    if st.proxy_list = [] then (.none, st)
    else
      match locksFree with
      | 0 => (.deadlock, st)
      | n + 1 =>
          match scanProxies st.proxy_list st.failed st.idx st.proxy_list.length with
          | (some p, i') => (.proxy p p, { st with idx := i' })
          | (Option.none, i') => getProxyAux { st with idx := i', failed := [] } n

/-- `ProxyRotator.get_proxy()` as called externally (lock available once). -/
def get_proxy (st : PRState) : ProxyResult × PRState := getProxyAux st 1

/-- Python `a or b` on optional strings (an empty string is falsy). -/
def orElseFalsy (a b : Option (List Char)) : Option (List Char) :=
  match a with
  | Option.some s => if s = [] then b else Option.some s
  | Option.none => b

/-- `ProxyRotator.mark_proxy_failed(proxy)`: when the dict is present, add
`proxy.get('http') or proxy.get('https')` to the failed set if truthy. -/
def mark_proxy_failed (st : PRState)
    (proxy : Option (Option (List Char) × Option (List Char))) : PRState :=
  match proxy with
  | Option.none => st
  | Option.some (a, b) =>
      match orElseFalsy a b with
      | Option.some url => if url = [] then st else { st with failed := st.failed.insert url }
      | Option.none => st

/-! ## Crawl orchestration (`base_scraper.py`, the two adapter control paths) -/

/-- Outcome of `scrape_product(url)` for one item: the call raised an
exception, returned a falsy value (`None` — its own except branch), or
returned a (truthy) record dict. -/
inductive ItemResult (R : Type) where
  | raiseExc
  | noData
  | data (r : R)

/-- The pagination loop of `BaseScraper.get_all_product_links`: while fewer
than `max_products` links are collected and a current page exists, check the
stop flag, ask the adapter for that page's links with the remaining quota
(`.error` = the adapter raised: log and break), break on an empty result,
else extend and follow the next-page chain. -/
def pageLoop {L : Type} (maxP : ℕ) :
    List (ℕ → Except Unit (List L)) → ℕ → (ℕ → Bool) → List L → List L
  | [], _, _, acc => acc
  | pg :: rest, i, pstops, acc =>
    if maxP ≤ acc.length then acc
    else if pstops i then acc
    else
      match pg (maxP - acc.length) with
      | .error _ => acc
      | .ok links =>
          if links.isEmpty then acc
          else pageLoop maxP rest (i + 1) pstops (acc ++ links)

/-- `BaseScraper.get_all_product_links`: run the pagination loop from the
start URL, then return `all_links[:max_products]`. -/
def get_all_product_links {L : Type} (maxP : ℕ)
    (pages : List (ℕ → Except Unit (List L))) (pstops : ℕ → Bool) : List L :=
  (pageLoop maxP pages 0 pstops []).take maxP

/-- Result of the item loop of `BaseScraper.scrape`: the accumulated records,
the number of loop iterations entered past the stop check (= items fetched),
and the indices after which the `per_item_delay` sleep ran. -/
structure ItemLoopOut (R : Type) where
  records : List R
  fetched : ℕ
  sleeps  : List ℕ

/-- The item loop of `BaseScraper.scrape`: for each link, check the stop flag
(break keeps the accumulated records); then fetch and parse: on a raised
exception log and continue (no sleep — the sleep sits inside the `try`); on a
truthy record append it; in both non-raising cases sleep `delay` when
positive. -/
def itemLoop {L R : Type} (items : ℕ → ItemResult R) (istops : ℕ → Bool)
    (delayPos : Bool) : List L → ℕ → List R → List ℕ → ItemLoopOut R
  | [], i, acc, slept => ⟨acc, i, slept⟩
  | _l :: rest, i, acc, slept =>
    if istops i then ⟨acc, i, slept⟩
    else
      match items i with
      | .raiseExc => itemLoop items istops delayPos rest (i + 1) acc slept
      | .noData => itemLoop items istops delayPos rest (i + 1) acc
          (if delayPos then slept ++ [i] else slept)
      | .data r => itemLoop items istops delayPos rest (i + 1) (acc ++ [r])
          (if delayPos then slept ++ [i] else slept)

namespace BaseScraper

/-- `BaseScraper.scrape` (the paged-detail control path used by the
BooksToScrape adapter): collect links, return an empty result if none were
found, else run the item loop. -/
def scrape {L R : Type} (maxP : ℕ) (pages : List (ℕ → Except Unit (List L)))
    (pstops istops : ℕ → Bool) (items : ℕ → ItemResult R) (delayPos : Bool) :
    ItemLoopOut R :=
  let links := get_all_product_links maxP pages pstops
  if links.isEmpty then ⟨[], 0, []⟩
  else itemLoop items istops delayPos links 0 [] []

end BaseScraper

/-- The capped append loop of `QuotesToScrapeScraper.scrape`:
`for quote in quotes: if len(scraped) >= max_products: break; append`. -/
def appendCapped {R : Type} (maxP : ℕ) : List R → List R → List R
  | acc, [] => acc
  | acc, q :: qs => if maxP ≤ acc.length then acc else appendCapped maxP (acc ++ [q]) qs

/-- The page loop of `QuotesToScrapeScraper.scrape`: while fewer than
`max_products` records are collected and a current page exists, check the
stop flag, extract the page's quotes (a failed page yields `[]` and the loop
continues), append them subject to the cap, then break if the progress
callback raised (the only raising statement of the `try` block), else follow
the next-page chain. -/
def quotesLoop {R : Type} (maxP : ℕ) :
    List (List R) → ℕ → (ℕ → Bool) → (ℕ → Bool) → List R → List R
  | [], _, _, _, acc => acc
  | pg :: rest, i, qstops, cbRaise, acc =>
    if maxP ≤ acc.length then acc
    else if qstops i then acc
    else
      let acc' := appendCapped maxP acc pg
      if cbRaise i then acc'
      else quotesLoop maxP rest (i + 1) qstops cbRaise acc'

/-- The record dict built by `QuotesToScrapeScraper.extract_quote_data`. -/
structure QuoteRecord where
  name : List Char
  price : ℚ
  rating : ℚ
  url : List Char
  text : List Char
  author : List Char
  tags : List Char
  category : List Char
deriving DecidableEq

/-- `re.sub(r'\s+', ' ', ...)`: collapse every whitespace run to one space. -/
def collapseWsGo : Bool → List Char → List Char
  | _, [] => []
  | prevWs, c :: rest =>
    if isWs c then
      (if prevWs then collapseWsGo true rest else ' ' :: collapseWsGo true rest)
    else c :: collapseWsGo false rest

/-- The character class kept by `BaseScraper.clean_text`'s second sub:
`[\w\s\-\.,!?()$€£¥]` (`\w` on the ASCII range exercised by the code). -/
def keepChar (c : Char) : Bool :=
  c.isAlphanum || c = '_' || isWs c || c = '-' || c = '.' || c = ',' ||
  c = '!' || c = '?' || c = '(' || c = ')' || c = '$' || c = '€' || c = '£' || c = '¥'

/-- `BaseScraper.clean_text`: falsy input maps to `""`; otherwise strip,
collapse whitespace, and drop the characters outside the kept class. -/
def clean_text (s : List Char) : List Char :=
  if s = [] then []
  else (collapseWsGo false (pyStrip s)).filter keepChar

/-- Python `', '.join(tags)`. -/
def joinComma : List (List Char) → List Char
  | [] => []
  | [t] => t
  | t :: ts => t ++ [',', ' '] ++ joinComma ts

/-- `QuotesToScrapeScraper.extract_quote_data`: a div whose extraction raised
(modelled `none`) yields `None`; otherwise build the record — `price`,
`rating` and `category` are constants, `name` embeds the raw author, `url` is
the listing page URL, `text`/`author` are cleaned, `tags` joined. -/
def extract_quote_data (pageUrl : List Char)
    (div : Option (List Char × List Char × List (List Char))) : Option QuoteRecord :=
  match div with
  | Option.none => Option.none
  | Option.some (qtext, author, tags) =>
      Option.some
        { name := "Quote by ".toList ++ author
          price := 0
          rating := 5
          url := pageUrl
          text := clean_text qtext
          author := clean_text author
          tags := joinComma tags
          category := "Quotes".toList }

/-- One listing page of the quotes site: its URL and the extraction outcomes
of its quote divs (`none` = that div's extraction raised and was skipped). -/
def QuotesPage : Type := List Char × List (Option (List Char × List Char × List (List Char)))

/-- `QuotesToScrapeScraper.scrape_quotes_from_page`: extract each div, keep
the successful ones. -/
def scrape_quotes_from_page (pg : QuotesPage) : List QuoteRecord :=
  pg.2.filterMap (extract_quote_data pg.1)

/-- `QuotesToScrapeScraper.scrape` (the flat-listing control path). -/
def quotes_scrape (maxP : ℕ) (pages : List QuotesPage)
    (qstops cbRaise : ℕ → Bool) : List QuoteRecord :=
  quotesLoop maxP (pages.map scrape_quotes_from_page) 0 qstops cbRaise []

/-- The record produced by one item outcome, if any. -/
def itemRec {R : Type} (items : ℕ → ItemResult R) (i : ℕ) : Option R :=
  match items i with
  | .data r => Option.some r
  | _ => Option.none

/-- Whether iteration `i` of the item loop runs the `per_item_delay` sleep:
the delay is positive and the item did not raise. -/
def itemSlept {R : Type} (items : ℕ → ItemResult R) (d : Bool) (i : ℕ) : Bool :=
  d && (match items i with | .raiseExc => false | _ => true)

/-- Full characterization of an uninterrupted segment of the item loop. -/
theorem itemLoop_run {L R : Type} (items : ℕ → ItemResult R) (istops : ℕ → Bool)
    (d : Bool) :
    ∀ (links : List L) (i : ℕ) (acc : List R) (slept : List ℕ),
      (∀ j, i ≤ j → j < i + links.length → istops j = false) →
      itemLoop items istops d links i acc slept =
        ⟨acc ++ (List.range' i links.length).filterMap (itemRec items),
         i + links.length,
         slept ++ (List.range' i links.length).filter (itemSlept items d)⟩ := by
  intro links
  induction links with
  | nil => intro i acc slept _; simp [itemLoop]
  | cons l rest ih =>
    intro i acc slept h
    have hstop : istops i = false := h i (le_refl i) (by simp)
    have h' : ∀ j, i + 1 ≤ j → j < (i + 1) + rest.length → istops j = false :=
      fun j h1 h2 => h j (by omega) (by simp only [List.length_cons]; omega)
    rw [itemLoop, hstop]
    simp only [Bool.false_eq_true, if_false, List.length_cons, List.range'_succ]
    cases hit : items i with
    | raiseExc =>
      dsimp only
      rw [ih (i + 1) acc slept h']
      have h1 : itemRec items i = Option.none := by simp [itemRec, hit]
      have h2 : itemSlept items d i = false := by simp [itemSlept, hit]
      rw [List.filterMap_cons_none h1, List.filter_cons]
      simp only [h2, Bool.false_eq_true, if_false, ItemLoopOut.mk.injEq]
      refine ⟨by simp, by omega, by simp⟩
    | noData =>
      dsimp only
      rw [ih (i + 1) acc (if d then slept ++ [i] else slept) h']
      have h1 : itemRec items i = Option.none := by simp [itemRec, hit]
      have h2 : itemSlept items d i = d := by simp [itemSlept, hit]
      rw [List.filterMap_cons_none h1, List.filter_cons]
      cases d with
      | false =>
        simp only [h2, Bool.false_eq_true, if_false, ItemLoopOut.mk.injEq]
        refine ⟨by simp, by omega, by simp⟩
      | true =>
        simp only [h2, if_true, ItemLoopOut.mk.injEq]
        refine ⟨by simp, by omega, by simp⟩
    | data r =>
      dsimp only
      rw [ih (i + 1) (acc ++ [r]) (if d then slept ++ [i] else slept) h']
      have h1 : itemRec items i = Option.some r := by simp [itemRec, hit]
      have h2 : itemSlept items d i = d := by simp [itemSlept, hit]
      rw [List.filterMap_cons_some h1, List.filter_cons]
      cases d with
      | false =>
        simp only [h2, Bool.false_eq_true, if_false, ItemLoopOut.mk.injEq]
        refine ⟨by simp, by omega, by simp⟩
      | true =>
        simp only [h2, if_true, ItemLoopOut.mk.injEq]
        refine ⟨by simp, by omega, by simp⟩

/-- Characterization of the item loop when the stop flag first turns true at
index `k` inside the links: processing halts at the check for item `k`. -/
theorem itemLoop_stopped {L R : Type} (items : ℕ → ItemResult R) (istops : ℕ → Bool)
    (d : Bool) (k : ℕ) :
    ∀ (links : List L) (i : ℕ) (acc : List R) (slept : List ℕ),
      i ≤ k → k ≤ i + links.length →
      (∀ j, i ≤ j → j < k → istops j = false) → istops k = true →
      itemLoop items istops d links i acc slept =
        ⟨acc ++ (List.range' i (k - i)).filterMap (itemRec items), k,
         slept ++ (List.range' i (k - i)).filter (itemSlept items d)⟩ := by
  intro links
  induction links with
  | nil =>
    intro i acc slept h1 h2 _ _
    simp only [List.length_nil, Nat.add_zero] at h2
    have hik : k = i := le_antisymm h2 h1
    subst hik
    simp [itemLoop]
  | cons l rest ih =>
    intro i acc slept h1 h2 h3 h4
    rcases eq_or_lt_of_le h1 with heq | hlt
    · rw [itemLoop, show istops i = true from heq ▸ h4]
      simp only [if_true, heq, Nat.sub_self, List.range', List.filterMap_nil,
        List.filter_nil, List.append_nil]
    · have hstop : istops i = false := h3 i (le_refl i) hlt
      have h3' : ∀ j, i + 1 ≤ j → j < k → istops j = false :=
        fun j hj1 hj2 => h3 j (by omega) hj2
      have h2' : k ≤ (i + 1) + rest.length := by
        simp only [List.length_cons] at h2; omega
      have hk : k - i = (k - (i + 1)) + 1 := by omega
      rw [itemLoop, hstop]
      simp only [Bool.false_eq_true, if_false, hk, List.range'_succ]
      cases hit : items i with
      | raiseExc =>
        dsimp only
        rw [ih (i + 1) acc slept hlt h2' h3' h4]
        have hr1 : itemRec items i = Option.none := by simp [itemRec, hit]
        have hr2 : itemSlept items d i = false := by simp [itemSlept, hit]
        rw [List.filterMap_cons_none hr1, List.filter_cons]
        simp only [hr2, Bool.false_eq_true, if_false]
      | noData =>
        dsimp only
        rw [ih (i + 1) acc (if d then slept ++ [i] else slept) hlt h2' h3' h4]
        have hr1 : itemRec items i = Option.none := by simp [itemRec, hit]
        have hr2 : itemSlept items d i = d := by simp [itemSlept, hit]
        rw [List.filterMap_cons_none hr1, List.filter_cons]
        cases d with
        | false => simp only [hr2, Bool.false_eq_true, if_false]
        | true => simp [hr2, ItemLoopOut.mk.injEq]
      | data r =>
        dsimp only
        rw [ih (i + 1) (acc ++ [r]) (if d then slept ++ [i] else slept) hlt h2' h3' h4]
        have hr1 : itemRec items i = Option.some r := by simp [itemRec, hit]
        have hr2 : itemSlept items d i = d := by simp [itemSlept, hit]
        rw [List.filterMap_cons_some hr1, List.filter_cons]
        cases d with
        | false => simp [hr2, ItemLoopOut.mk.injEq]
        | true => simp [hr2, ItemLoopOut.mk.injEq]

/-- The item loop never produces more records than it has links plus whatever
was already accumulated. -/
theorem itemLoop_records_le {L R : Type} (items : ℕ → ItemResult R)
    (istops : ℕ → Bool) (d : Bool) :
    ∀ (links : List L) (i : ℕ) (acc : List R) (slept : List ℕ),
      (itemLoop items istops d links i acc slept).records.length ≤
        acc.length + links.length := by
  intro links
  induction links with
  | nil => intro i acc slept; simp [itemLoop]
  | cons l rest ih =>
    intro i acc slept
    rw [itemLoop]
    split
    · simp
    · cases hit : items i with
      | raiseExc =>
        dsimp only
        exact le_trans (ih (i + 1) acc slept)
          (by simp only [List.length_cons]; omega)
      | noData =>
        dsimp only
        exact le_trans (ih (i + 1) acc _)
          (by simp only [List.length_cons]; omega)
      | data r =>
        dsimp only
        refine le_trans (ih (i + 1) (acc ++ [r]) _) ?_
        simp only [List.length_append, List.length_cons, List.length_nil]
        omega

/-- `appendCapped` never grows the accumulator beyond the cap. -/
theorem appendCapped_length_le {R : Type} (maxP : ℕ) :
    ∀ (qs acc : List R), acc.length ≤ maxP →
      (appendCapped maxP acc qs).length ≤ maxP := by
  intro qs
  induction qs with
  | nil => intro acc h; simpa [appendCapped] using h
  | cons q qs ih =>
    intro acc h
    rw [appendCapped]
    split
    · exact h
    · next hlen =>
      refine ih (acc ++ [q]) ?_
      simp only [List.length_append, List.length_cons, List.length_nil]
      omega

/-- The quotes page loop never grows the accumulator beyond the cap. -/
theorem quotesLoop_length_le {R : Type} (maxP : ℕ) :
    ∀ (pgs : List (List R)) (i : ℕ) (qstops cb : ℕ → Bool) (acc : List R),
      acc.length ≤ maxP → (quotesLoop maxP pgs i qstops cb acc).length ≤ maxP := by
  intro pgs
  induction pgs with
  | nil => intro i qs cb acc h; simpa [quotesLoop] using h
  | cons pg rest ih =>
    intro i qs cb acc h
    rw [quotesLoop]
    split
    · exact h
    · split
      · exact h
      · have hacc := appendCapped_length_le maxP pg acc h
        split
        · exact hacc
        · exact ih (i + 1) qs cb _ hacc

/-- C1: with `max_items = N` (`max_products`), both shipped control paths —
the paged-detail `BaseScraper.scrape` used by the BooksToScrape adapter and
the flat-listing `QuotesToScrapeScraper.scrape` — return at most `N` records,
whatever the pages deliver, wherever failures strike, and whenever the stop
flag fires. -/
theorem scrape_respects_max_items (maxP : ℕ) {L R : Type}
    (pages : List (ℕ → Except Unit (List L))) (pstops istops : ℕ → Bool)
    (items : ℕ → ItemResult R) (d : Bool) (qpages : List QuotesPage)
    (qstops cb : ℕ → Bool) :
    (BaseScraper.scrape maxP pages pstops istops items d).records.length ≤ maxP ∧
    (quotes_scrape maxP qpages qstops cb).length ≤ maxP := by
  constructor
  · unfold BaseScraper.scrape
    dsimp only
    split
    · simp
    · have h1 := itemLoop_records_le items istops d
        (get_all_product_links maxP pages pstops) 0 [] []
      have h2 : (get_all_product_links maxP pages pstops).length ≤ maxP := by
        unfold get_all_product_links
        simp
      simp only [List.length_nil, Nat.zero_add] at h1
      exact le_trans h1 h2
  · exact quotesLoop_length_le maxP _ 0 qstops cb [] (by simp)

/-- C2: if the stop flag first becomes true at item index `k`, the item loop
of `BaseScraper.scrape` stops at the check for item `k`: it returns exactly
the records collected from items `0..k-1` (none lost) and fetches exactly `k`
items. -/
theorem itemLoop_cancellation {L R : Type} (items : ℕ → ItemResult R)
    (istops : ℕ → Bool) (d : Bool) (links : List L) (k : ℕ)
    (hk : k ≤ links.length) (hstop : istops k = true)
    (hpre : ∀ j, j < k → istops j = false) :
    (itemLoop items istops d links 0 [] []).records =
      (List.range k).filterMap (itemRec items) ∧
    (itemLoop items istops d links 0 [] []).fetched = k := by
  have h := itemLoop_stopped items istops d k links 0 [] [] (Nat.zero_le k)
    (by omega) (fun j _ hj => hpre j hj) hstop
  rw [h]
  exact ⟨by simp [List.range_eq_range'], rfl⟩

/-- Witness for C2: three links, stop flag first true at index 2. -/
theorem itemLoop_cancellation_witness :
    (itemLoop (fun i => ItemResult.data i) (fun j => decide (j = 2)) true
        ([10, 11, 12] : List ℕ) 0 [] []).records =
      (List.range 2).filterMap (itemRec fun i => ItemResult.data i) ∧
    (itemLoop (fun i => ItemResult.data i) (fun j => decide (j = 2)) true
        ([10, 11, 12] : List ℕ) 0 [] []).fetched = 2 :=
  itemLoop_cancellation (fun i => ItemResult.data i) (fun j => decide (j = 2))
    true [10, 11, 12] 2 (by norm_num) (by decide) (by decide)

/-- C7: with no stop, the item loop processes every link to the end — a
raising item is skipped without aborting the run — and the result contains
exactly the records of the items that parsed successfully, in order; items
that raised or returned no data contribute nothing. -/
theorem itemLoop_skip_failures {L R : Type} (items : ℕ → ItemResult R)
    (istops : ℕ → Bool) (d : Bool) (links : List L)
    (hnostop : ∀ j, j < links.length → istops j = false) :
    (itemLoop items istops d links 0 [] []).records =
      (List.range links.length).filterMap (itemRec items) ∧
    (itemLoop items istops d links 0 [] []).fetched = links.length := by
  have h := itemLoop_run items istops d links 0 [] []
    (fun j _ hj => hnostop j (by omega))
  rw [h]
  exact ⟨by simp [List.range_eq_range'], by simp⟩

/-- Witness for C7: item 1 raises, items 0 and 2 parse; the run returns the
two successful records. -/
theorem itemLoop_skip_failures_witness :
    (itemLoop (fun i => if i = 1 then ItemResult.raiseExc else ItemResult.data i)
        (fun _ => false) true ([10, 11, 12] : List ℕ) 0 [] []).records =
      (List.range 3).filterMap
        (itemRec fun i => if i = 1 then ItemResult.raiseExc else ItemResult.data i) ∧
    (itemLoop (fun i => if i = 1 then ItemResult.raiseExc else ItemResult.data i)
        (fun _ => false) true ([10, 11, 12] : List ℕ) 0 [] []).fetched = 3 :=
  itemLoop_skip_failures (fun i => if i = 1 then ItemResult.raiseExc else ItemResult.data i)
    (fun _ => false) true [10, 11, 12] (by decide)

/-- C9 counterexample: with a positive delay, a single-link run sleeps after
its (final) item — both when the item parsed successfully and when it
produced no record — whereas the claim says the sleep is skipped after the
final item and only follows successful parses. -/
theorem itemLoop_sleeps_after_final :
    (itemLoop (fun _ => ItemResult.data 0) (fun _ => false) true
        ([()] : List Unit) 0 [] []).sleeps = [0] ∧
    (itemLoop (fun _ => (ItemResult.noData : ItemResult ℕ)) (fun _ => false) true
        ([()] : List Unit) 0 [] []).sleeps = [0] :=
  ⟨rfl, rfl⟩

/-- C9 amended: when `delay > 0`, the `per_item_delay` sleep runs after
exactly the items whose processing did not raise — including items that
produced no record and including the final item of the link list; it is
skipped only for items that raised (and when the delay is not positive). -/
theorem itemLoop_sleeps_spec {L R : Type} (items : ℕ → ItemResult R)
    (istops : ℕ → Bool) (d : Bool) (links : List L)
    (hnostop : ∀ j, j < links.length → istops j = false) :
    (itemLoop items istops d links 0 [] []).sleeps =
      (List.range links.length).filter (itemSlept items d) := by
  have h := itemLoop_run items istops d links 0 [] []
    (fun j _ hj => hnostop j (by omega))
  rw [h]
  simp [List.range_eq_range']

/-- Witness for the amended C9: item 1 raises, so the sleeps are after items
0 and 2 only. -/
theorem itemLoop_sleeps_spec_witness :
    (itemLoop (fun i => if i = 1 then ItemResult.raiseExc else ItemResult.data i)
        (fun _ => false) true ([10, 11, 12] : List ℕ) 0 [] []).sleeps =
      (List.range 3).filter
        (itemSlept (fun i => if i = 1 then ItemResult.raiseExc else ItemResult.data i) true) :=
  itemLoop_sleeps_spec (fun i => if i = 1 then ItemResult.raiseExc else ItemResult.data i)
    (fun _ => false) true [10, 11, 12] (by decide)

/-- C6: the failing input — one configured proxy, already marked failed.  The
claim says the next `get_proxy()` clears the failed set and returns a proxy;
the code instead recurses inside `with self.lock` and blocks forever
re-acquiring the non-reentrant lock. -/
theorem proxy_all_failed_deadlocks :
    (get_proxy (mark_proxy_failed ⟨["proxy1".toList], 0, []⟩
        (Option.some (Option.some "proxy1".toList, Option.some "proxy1".toList)))).1 =
      ProxyResult.deadlock := by
  decide

/-- Anything in `appendCapped`'s output came from the accumulator or the
appended list. -/
theorem appendCapped_mem {R : Type} (maxP : ℕ) :
    ∀ (qs acc : List R) (r : R), r ∈ appendCapped maxP acc qs → r ∈ acc ∨ r ∈ qs := by
  intro qs
  induction qs with
  | nil => intro acc r h; exact Or.inl (by simpa [appendCapped] using h)
  | cons q qs ih =>
    intro acc r h
    rw [appendCapped] at h
    split at h
    · exact Or.inl h
    · rcases ih (acc ++ [q]) r h with h' | h'
      · rcases List.mem_append.mp h' with h'' | h''
        · exact Or.inl h''
        · simp only [List.mem_singleton] at h''
          exact Or.inr (by simp [h''])
      · exact Or.inr (List.mem_cons_of_mem _ h')

/-- Anything in the quotes page loop's output came from the accumulator or
one of the pages. -/
theorem quotesLoop_mem {R : Type} (maxP : ℕ) :
    ∀ (pgs : List (List R)) (i : ℕ) (qstops cb : ℕ → Bool) (acc : List R) (r : R),
      r ∈ quotesLoop maxP pgs i qstops cb acc → r ∈ acc ∨ ∃ pg ∈ pgs, r ∈ pg := by
  intro pgs
  induction pgs with
  | nil => intro i qs cb acc r h; exact Or.inl (by simpa [quotesLoop] using h)
  | cons pg rest ih =>
    intro i qs cb acc r h
    rw [quotesLoop] at h
    split at h
    · exact Or.inl h
    · split at h
      · exact Or.inl h
      · have hfin : r ∈ appendCapped maxP acc pg ∨ ∃ p ∈ rest, r ∈ p := by
          split at h
          · exact Or.inl h
          · exact ih (i + 1) qs cb _ r h
        rcases hfin with h' | ⟨p, hp, hrp⟩
        · rcases appendCapped_mem maxP pg acc r h' with h'' | h''
          · exact Or.inl h''
          · exact Or.inr ⟨pg, List.mem_cons_self _ _, h''⟩
        · exact Or.inr ⟨p, List.mem_cons_of_mem _ hp, hrp⟩

/-- C10: every record returned by the flat-listing quotes adapter carries the
constant fields `price = 0.0`, `rating = 5.0`, `category = "Quotes"`, and its
`url`, `name`, `text`, `author`, `tags` fields are derived from some div of
some visited page exactly as `extract_quote_data` builds them. -/
theorem quotes_scrape_constant_fields (maxP : ℕ) (pages : List QuotesPage)
    (qstops cb : ℕ → Bool) :
    ∀ r ∈ quotes_scrape maxP pages qstops cb,
      r.price = 0 ∧ r.rating = 5 ∧ r.category = "Quotes".toList ∧
      ∃ pg ∈ pages, ∃ t a tg,
        Option.some (t, a, tg) ∈ pg.2 ∧ r.url = pg.1 ∧
        r.name = "Quote by ".toList ++ a ∧ r.text = clean_text t ∧
        r.author = clean_text a ∧ r.tags = joinComma tg := by
  intro r hr
  rcases quotesLoop_mem maxP _ 0 qstops cb [] r hr with h | ⟨pg', hpg', hrpg⟩
  · simp at h
  · rcases List.mem_map.mp hpg' with ⟨pg, hpg, rfl⟩
    rcases List.mem_filterMap.mp hrpg with ⟨div, hdiv, hex⟩
    cases div with
    | none => simp [extract_quote_data] at hex
    | some tat =>
      obtain ⟨t, a, tg⟩ := tat
      simp only [extract_quote_data, Option.some.injEq] at hex
      subst hex
      exact ⟨rfl, rfl, rfl, pg, hpg, t, a, tg, hdiv, rfl, rfl, rfl, rfl, rfl⟩

/-- Witness for C10: a one-page, one-quote site. -/
theorem quotes_scrape_constant_fields_witness :
    let rec1 : QuoteRecord :=
      ⟨"Quote by a".toList, 0, 5, "u".toList, ['t'], ['a'], [], "Quotes".toList⟩
    rec1.price = 0 ∧ rec1.rating = 5 ∧ rec1.category = "Quotes".toList ∧
    ∃ pg ∈ [(("u".toList, [Option.some ("t".toList, "a".toList,
        ([] : List (List Char)))]) : QuotesPage)], ∃ t a tg,
      Option.some (t, a, tg) ∈ pg.2 ∧ rec1.url = pg.1 ∧
      rec1.name = "Quote by ".toList ++ a ∧ rec1.text = clean_text t ∧
      rec1.author = clean_text a ∧ rec1.tags = joinComma tg :=
  quotes_scrape_constant_fields 5
    [("u".toList, [Option.some ("t".toList, "a".toList, [])])]
    (fun _ => false) (fun _ => false)
    ⟨"Quote by a".toList, 0, 5, "u".toList, ['t'], ['a'], [], "Quotes".toList⟩
    (by decide)

/-! ## The rating rescale rule (claim C3) -/

/-- The rescale rule as worded in the spec: divide by 2 above 5, by 20 above
10, clamp to `[0, 5]`.  Spec-side definition for comparison only: it coincides
with `DataProcessor.rescale` but not with `BaseScraper.rescale`. -/
def ratingRescaleSpec (v : ℚ) : ℚ :=
  min (max (if 10 < v then v / 20 else if 5 < v then v / 2 else v) 0) 5

/-- C3 (counterexample): the claimed divide-by-20-above-10 rule disagrees with
`BaseScraper.parse_rating` on the input `"11"`: this source function has no
divide-by-20 branch (`if rating > 5: rating = rating / 2` then
`min(rating, 5.0)`), so it returns `5`, while the claimed rule gives
`11 / 20 = 0.55`. -/
theorem parse_rating_no_div20 :
    BaseScraper.parse_rating "11".toList = Option.some 5 ∧
    ratingRescaleSpec 11 = 11 / 20 ∧ ¬ ((5 : ℚ) = 11 / 20) := by
  refine ⟨?_, ?_, by norm_num⟩
  · rw [BaseScraper.parse_rating, if_neg (by decide), ratingPats]
    simp only [tryRatingVal,
      show searchPat ratPat1 (pyStrip "11".toList) = Option.none from by decide,
      show searchPat ratPat2 (pyStrip "11".toList) = Option.none from by decide,
      show searchPat ratPat3 (pyStrip "11".toList) = Option.none from by decide,
      show searchPat ratPat4 (pyStrip "11".toList) = Option.none from by decide,
      show searchPat ratPat5 (pyStrip "11".toList) = Option.some ['1', '1'] from by decide]
    rw [pyFloatDD, if_pos (by decide),
      show List.takeWhile (fun c => ¬ (c = '.')) ['1', '1'] = ['1', '1'] from by decide,
      show List.dropWhile (fun c => ¬ (c = '.')) ['1', '1'] = ([] : List Char) from by decide]
    norm_num [show digitsVal ['1', '1'] = 11 from by decide,
      show digitsVal ([] : List Char) = 0 from by decide, BaseScraper.rescale,
      Option.map, min_def]
  · rw [ratingRescaleSpec]
    norm_num

/-- C3 (amended): `BaseScraper.parse_rating` tries the five patterns in order,
first parsed match winning, and rescales only by dividing by 2 above 5 and
capping at 5 — there is no divide-by-20 branch; in particular
`"4.5 out of 5"` yields `4.5`, `"9/10"` yields `4.5`, `"12 stars"` yields `5`,
and unparsable text yields `none`. -/
theorem parse_rating_spec :
    (∀ s : List Char, BaseScraper.parse_rating s =
        if s = [] then none
        else (tryRatingVal [ratPat1, ratPat2, ratPat3, ratPat4, ratPat5]
            (pyStrip s)).map (fun v => min (if 5 < v then v / 2 else v) 5)) ∧
    BaseScraper.parse_rating "4.5 out of 5".toList = Option.some (9 / 2) ∧
    BaseScraper.parse_rating "9/10".toList = Option.some (9 / 2) ∧
    BaseScraper.parse_rating "12 stars".toList = Option.some 5 ∧
    BaseScraper.parse_rating "hello".toList = Option.none := by
  refine ⟨fun s => rfl, ?_, ?_, ?_, by decide⟩
  · rw [BaseScraper.parse_rating, if_neg (by decide), ratingPats]
    simp only [tryRatingVal,
      show searchPat ratPat1 (pyStrip "4.5 out of 5".toList) =
        Option.some ['4', '.', '5'] from by decide]
    rw [pyFloatDD, if_pos (by decide),
      show List.takeWhile (fun c => ¬ (c = '.')) ['4', '.', '5'] = ['4'] from by decide,
      show List.dropWhile (fun c => ¬ (c = '.')) ['4', '.', '5'] = ['.', '5'] from by decide]
    norm_num [show digitsVal ['4'] = 4 from by decide,
      show digitsVal ['5'] = 5 from by decide, BaseScraper.rescale,
      Option.map, min_def]
  · rw [BaseScraper.parse_rating, if_neg (by decide), ratingPats]
    simp only [tryRatingVal,
      show searchPat ratPat1 (pyStrip "9/10".toList) = Option.none from by decide,
      show searchPat ratPat2 (pyStrip "9/10".toList) = Option.some ['9'] from by decide]
    rw [pyFloatDD, if_pos (by decide),
      show List.takeWhile (fun c => ¬ (c = '.')) ['9'] = ['9'] from by decide,
      show List.dropWhile (fun c => ¬ (c = '.')) ['9'] = ([] : List Char) from by decide]
    norm_num [show digitsVal ['9'] = 9 from by decide,
      show digitsVal ([] : List Char) = 0 from by decide, BaseScraper.rescale,
      Option.map, min_def]
  · rw [BaseScraper.parse_rating, if_neg (by decide), ratingPats]
    simp only [tryRatingVal,
      show searchPat ratPat1 (pyStrip "12 stars".toList) = Option.none from by decide,
      show searchPat ratPat2 (pyStrip "12 stars".toList) = Option.none from by decide,
      show searchPat ratPat3 (pyStrip "12 stars".toList) =
        Option.some ['1', '2'] from by decide]
    rw [pyFloatDD, if_pos (by decide),
      show List.takeWhile (fun c => ¬ (c = '.')) ['1', '2'] = ['1', '2'] from by decide,
      show List.dropWhile (fun c => ¬ (c = '.')) ['1', '2'] = ([] : List Char) from by decide]
    norm_num [show digitsVal ['1', '2'] = 12 from by decide,
      show digitsVal ([] : List Char) = 0 from by decide, BaseScraper.rescale,
      Option.map, min_def]

/-! ## The two parsing stages compared (claim C8) -/

/-- `Char.toLower` is the identity backwards: if lowering `c` gives a character
below `'a'` (code 97), then `c` was already that character. -/
theorem toLower_eq_low {c d : Char} (h : Char.toLower c = d) (hd : d.toNat < 97) :
    c = d := by
  simp only [Char.toLower] at h
  split at h
  · next hr =>
    exfalso
    rw [← h] at hd
    obtain ⟨h65, h90⟩ := hr
    obtain ⟨n, hn⟩ : ∃ n, Char.toNat c = n := ⟨_, rfl⟩
    rw [hn] at h65 h90 hd
    interval_cases n <;> exact absurd hd (by decide)
  · exact h

/-- If `str.lower()` of `t` is a string of characters below code 97, then `t`
was already that string. -/
theorem pyLower_eq_low : ∀ {t l : List Char}, pyLower t = l →
    (∀ d ∈ l, d.toNat < 97) → t = l := by
  intro t
  induction t with
  | nil => intro l h _; exact h
  | cons c t ih =>
    intro l h hl
    cases l with
    | nil => exact absurd h (by simp [pyLower])
    | cons d l' =>
      simp only [pyLower, List.map_cons, List.cons.injEq] at h
      obtain ⟨h1, h2⟩ := h
      have hc := toLower_eq_low h1 (hl d (List.mem_cons_self d l'))
      have ht := ih h2 fun x hx => hl x (List.mem_cons_of_mem d hx)
      rw [hc, ht]

/-- Every character of the stripped string occurs in the original. -/
theorem pyStrip_subset {s : List Char} : ∀ c ∈ pyStrip s, c ∈ s := by
  intro c hc
  rw [pyStrip, List.mem_reverse] at hc
  have h1 : c ∈ (s.dropWhile isWs).reverse :=
    List.Sublist.mem hc (List.dropWhile_sublist isWs)
  rw [List.mem_reverse] at h1
  exact List.Sublist.mem h1 (List.dropWhile_sublist isWs)

/-- On characters other than `₹` the two currency classes coincide. -/
theorem isCurrency_agree {c : Char} (h : ¬ c = '₹') :
    isCurrency true c = isCurrency false c := by
  simp [isCurrency, h]

/-- `tryDrops` congruence: continuations agreeing on every drop of the input
give the same result. -/
theorem tryDrops_congr {α : Type} {f g : List Char → Option α} (s : List Char)
    (h : ∀ m : ℕ, f (s.drop m) = g (s.drop m)) :
    ∀ n : ℕ, tryDrops f s n = tryDrops g s n := by
  intro n
  induction n with
  | zero => simpa [tryDrops] using h 0
  | succ j ih => rw [tryDrops, tryDrops, h (j + 1), ih]

/-- `matchSeq` only ever calls its continuation on suffixes of the input, so
continuations agreeing on all suffixes give the same result. -/
theorem matchSeq_congr_k {α : Type} :
    ∀ (items : List RItem) (u : List Char) (k g : List Char → Option α),
      (∀ v, v <:+ u → k v = g v) → matchSeq items u k = matchSeq items u g := by
  intro items
  induction items with
  | nil => exact fun u k g h => h u (List.suffix_refl u)
  | cons it rest ih =>
    intro u k g h
    cases it with
    | cls p =>
      cases u with
      | nil => rfl
      | cons c u' =>
        simp only [matchSeq]
        split
        · exact ih u' k g fun v hv => h v (hv.trans (List.suffix_cons c u'))
        · rfl
    | star p =>
      simp only [matchSeq]
      exact tryDrops_congr u (fun m =>
        ih (u.drop m) k g fun v hv => h v (hv.trans (List.drop_suffix m u))) _
    | plus p =>
      cases u with
      | nil => rfl
      | cons c u' =>
        simp only [matchSeq]
        split
        · exact tryDrops_congr u' (fun m =>
            ih (u'.drop m) k g fun v hv =>
              h v ((hv.trans (List.drop_suffix m u')).trans (List.suffix_cons c u'))) _
        · rfl
    | opt p =>
      cases u with
      | nil => exact ih [] k g h
      | cons c u' =>
        simp only [matchSeq]
        have h' : ∀ v, v <:+ u' → k v = g v :=
          fun v hv => h v (hv.trans (List.suffix_cons c u'))
        split
        · rw [ih u' k g h', ih (c :: u') k g h]
        · exact ih (c :: u') k g h
    | lit l ci =>
      simp only [matchSeq]
      split
      · exact ih (u.drop l.length) k g fun v hv => h v (hv.trans (List.drop_suffix _ u))
      · rfl

/-- The trailing `\s*[currency]` of the second price pattern reads only
characters of its own input, so without `₹` in the input the two currency
classes give the same result. -/
theorem matchSeq_post2_congr {α : Type} (k : List Char → Option α) (u : List Char)
    (h : ∀ c ∈ u, ¬ c = '₹') :
    matchSeq [.star isWs, .cls (isCurrency true)] u k =
      matchSeq [.star isWs, .cls (isCurrency false)] u k := by
  simp only [matchSeq]
  refine tryDrops_congr u (fun m => ?_) _
  cases hd : u.drop m with
  | nil => rfl
  | cons c v =>
    have hc : c ∈ u := (List.drop_suffix m u).subset (hd ▸ List.mem_cons_self c v)
    simp only [matchSeq, isCurrency_agree (h c hc)]

/-- Anchored match of the first price pattern is unaffected by the `₹`
extension when the input contains no `₹`. -/
theorem searchAt_price1_congr {u : List Char} (h : ∀ c ∈ u, ¬ c = '₹') :
    searchAt (pricePat1 true) u = searchAt (pricePat1 false) u := by
  cases u with
  | nil => rfl
  | cons c u' =>
    have hc := isCurrency_agree (h c (List.mem_cons_self c u'))
    simp only [searchAt, pricePat1, matchSeq, hc]

/-- Anchored match of the second price pattern is unaffected by the `₹`
extension when the input contains no `₹`. -/
theorem searchAt_price2_congr {u : List Char} (h : ∀ c ∈ u, ¬ c = '₹') :
    searchAt (pricePat2 true) u = searchAt (pricePat2 false) u := by
  refine matchSeq_congr_k priceGrp u _ _ fun v hv => ?_
  exact matchSeq_post2_congr _ v fun c hc => h c (hv.subset hc)

/-- `re.search` of the first price pattern, same congruence. -/
theorem searchPat_price1_congr : ∀ (s : List Char), (∀ c ∈ s, ¬ c = '₹') →
    searchPat (pricePat1 true) s = searchPat (pricePat1 false) s := by
  intro s
  induction s with
  | nil => intro h; exact searchAt_price1_congr h
  | cons c s' ih =>
    intro h
    simp only [searchPat]
    rw [searchAt_price1_congr h, ih fun x hx => h x (List.mem_cons_of_mem c hx)]

/-- `re.search` of the second price pattern, same congruence. -/
theorem searchPat_price2_congr : ∀ (s : List Char), (∀ c ∈ s, ¬ c = '₹') →
    searchPat (pricePat2 true) s = searchPat (pricePat2 false) s := by
  intro s
  induction s with
  | nil => intro h; exact searchAt_price2_congr h
  | cons c s' ih =>
    intro h
    simp only [searchPat]
    rw [searchAt_price2_congr h, ih fun x hx => h x (List.mem_cons_of_mem c hx)]

/-- The full pattern loop of the two price parsers agrees on inputs without
`₹` (the third pattern has no currency class at all). -/
theorem tryPriceVal_congr {t : List Char} (h : ∀ c ∈ t, ¬ c = '₹') :
    tryPriceVal (pricePats true) t = tryPriceVal (pricePats false) t := by
  simp only [pricePats, tryPriceVal, searchPat_price1_congr t h,
    searchPat_price2_congr t h]

/-- `float()` of a digits/dot capture is nonnegative. -/
theorem pyFloatDD_nonneg {l : List Char} {v : ℚ} (h : pyFloatDD l = Option.some v) :
    0 ≤ v := by
  rw [pyFloatDD] at h
  split at h
  · rw [Option.some.injEq] at h
    subst h
    positivity
  · exact absurd h (by simp)

/-- Every value produced by the rating pattern loop is nonnegative. -/
theorem tryRatingVal_nonneg : ∀ (ps : List Pat) (t : List Char) {v : ℚ},
    tryRatingVal ps t = Option.some v → 0 ≤ v := by
  intro ps
  induction ps with
  | nil => intro t v h; exact absurd h (by simp [tryRatingVal])
  | cons p ps ih =>
    intro t v h
    rw [tryRatingVal] at h
    cases hs : searchPat p t with
    | none => rw [hs] at h; exact ih t h
    | some g =>
      rw [hs] at h
      dsimp only at h
      cases hf : pyFloatDD g with
      | none => rw [hf] at h; exact ih t h
      | some w =>
        rw [hf] at h
        have h2 := Option.some.inj h
        exact h2 ▸ pyFloatDD_nonneg hf

/-- The two rescale rules agree on nonnegative values outside `(10, 100)`. -/
theorem rescale_agree {v : ℚ} (h0 : 0 ≤ v) (h : v ≤ 10 ∨ 100 ≤ v) :
    DataProcessor.rescale v = BaseScraper.rescale v := by
  rw [DataProcessor.rescale, BaseScraper.rescale]
  rcases h with h | h
  · rw [if_neg (by linarith : ¬ (10 : ℚ) < v)]
    by_cases h5 : 5 < v
    · rw [if_pos h5, max_eq_left (by linarith)]
    · rw [if_neg h5, max_eq_left h0]
  · rw [if_pos (by linarith : (10 : ℚ) < v), if_pos (by linarith : (5 : ℚ) < v),
      max_eq_left (by linarith), min_eq_right (by linarith),
      min_eq_right (by linarith)]

/-- The comma-removal filters appearing in the zero evaluations. -/
theorem filter_comma_eval :
    (['0'].filter fun c => ¬ (c = ',')) = ['0'] ∧
    (['0', '.', '0', '0'].filter fun c => ¬ (c = ',')) = ['0', '.', '0', '0'] := by
  exact ⟨by decide, by decide⟩

/-- The adapter price pattern loop evaluates to `0` on `"0"`. -/
theorem tryPriceVal_zero : tryPriceVal (pricePats false) ['0'] = Option.some 0 := by
  rw [pricePats]
  simp only [tryPriceVal,
    show searchPat (pricePat1 false) ['0'] = Option.none from by decide,
    show searchPat (pricePat2 false) ['0'] = Option.none from by decide,
    show searchPat pricePat3 ['0'] = Option.some ['0'] from by decide,
    filter_comma_eval.1]
  rw [pyFloatDD, if_pos (by decide),
    show List.takeWhile (fun c => ¬ (c = '.')) ['0'] = ['0'] from by decide,
    show List.dropWhile (fun c => ¬ (c = '.')) ['0'] = ([] : List Char) from by decide]
  norm_num [show digitsVal ['0'] = 0 from by decide,
    show digitsVal ([] : List Char) = 0 from by decide]

/-- The adapter price pattern loop evaluates to `0` on `"0.00"`. -/
theorem tryPriceVal_zerozero :
    tryPriceVal (pricePats false) ['0', '.', '0', '0'] = Option.some 0 := by
  rw [pricePats]
  simp only [tryPriceVal,
    show searchPat (pricePat1 false) ['0', '.', '0', '0'] = Option.none from by decide,
    show searchPat (pricePat2 false) ['0', '.', '0', '0'] = Option.none from by decide,
    show searchPat pricePat3 ['0', '.', '0', '0'] =
      Option.some ['0', '.', '0', '0'] from by decide,
    filter_comma_eval.2]
  rw [pyFloatDD, if_pos (by decide),
    show List.takeWhile (fun c => ¬ (c = '.')) ['0', '.', '0', '0'] = ['0'] from by decide,
    show List.dropWhile (fun c => ¬ (c = '.')) ['0', '.', '0', '0'] =
      ['.', '0', '0'] from by decide]
  norm_num [show digitsVal ['0'] = 0 from by decide,
    show digitsVal ['0', '0'] = 0 from by decide]

/-- Price agreement: outside the processor-only `'free'`/empty shortcut and
without `₹` in the input, the two price parsers return the same result (the
`'0'`/`'0.00'` shortcut cases agree anyway, both giving `0`). -/
theorem parse_price_agree (s : List Char)
    (hfree : ¬ pyLower (pyStrip s) = ['f', 'r', 'e', 'e'])
    (hne : ¬ pyStrip s = []) (hru : ¬ '₹' ∈ s) :
    DataProcessor.parse_price s = BaseScraper.parse_price s := by
  have hsne : ¬ s = [] := fun he => hne (by rw [he]; rfl)
  have hnr : ∀ c ∈ pyStrip s, ¬ c = '₹' :=
    fun c hc he => hru (he ▸ pyStrip_subset c hc)
  simp only [DataProcessor.parse_price]
  rw [BaseScraper.parse_price, if_neg hsne]
  by_cases h0 : pyLower (pyStrip s) = ['0']
  · have ht : pyStrip s = ['0'] := pyLower_eq_low h0 (by decide)
    rw [if_pos (Or.inr (Or.inl h0)), ht]
    exact tryPriceVal_zero.symm
  · by_cases h00 : pyLower (pyStrip s) = ['0', '.', '0', '0']
    · have ht : pyStrip s = ['0', '.', '0', '0'] := pyLower_eq_low h00 (by decide)
      rw [if_pos (Or.inr (Or.inr (Or.inl h00))), ht]
      exact tryPriceVal_zerozero.symm
    · have hemp : ¬ pyLower (pyStrip s) = [] := by
        intro he
        exact hne (List.map_eq_nil_iff.mp he)
      rw [if_neg (by simp [hfree, h0, h00, hemp])]
      exact tryPriceVal_congr hnr

/-- Rating agreement: when the raw matched value lies outside the
divide-by-20 window `(10, 100)`, the two rating parsers return the same
result. -/
theorem parse_rating_agree (s : List Char)
    (h : ∀ v : ℚ, tryRatingVal ratingPats (pyStrip s) = Option.some v →
      v ≤ 10 ∨ 100 ≤ v) :
    DataProcessor.parse_rating s = BaseScraper.parse_rating s := by
  rw [DataProcessor.parse_rating, BaseScraper.parse_rating]
  by_cases hs : s = []
  · subst hs
    rw [if_pos rfl]
    rfl
  · rw [if_neg hs]
    cases hm : tryRatingVal ratingPats (pyStrip s) with
    | none => rfl
    | some v =>
      have h0 := tryRatingVal_nonneg ratingPats (pyStrip s) hm
      simp only [Option.map]
      rw [rescale_agree h0 (h v hm)]

/-- C8 (counterexample): the two parsing stages are not extensionally equal:
on `"free"` the processor price parser returns `0.0` where the adapter returns
`None`, and on `"11"` the processor rating parser divides by 20 (giving
`0.55`) where the adapter caps at `5`. -/
theorem parsers_diverge :
    DataProcessor.parse_price "free".toList = Option.some 0 ∧
    BaseScraper.parse_price "free".toList = Option.none ∧
    DataProcessor.parse_rating "11".toList = Option.some (11 / 20) ∧
    BaseScraper.parse_rating "11".toList = Option.some 5 ∧
    ¬ (Option.some ((11 : ℚ) / 20) = Option.some (5 : ℚ)) := by
  refine ⟨?_, by decide, ?_, ?_, by simp; norm_num⟩
  · simp only [DataProcessor.parse_price]
    rw [if_pos (Or.inl (by decide))]
  · rw [DataProcessor.parse_rating, ratingPats]
    simp only [tryRatingVal,
      show searchPat ratPat1 (pyStrip "11".toList) = Option.none from by decide,
      show searchPat ratPat2 (pyStrip "11".toList) = Option.none from by decide,
      show searchPat ratPat3 (pyStrip "11".toList) = Option.none from by decide,
      show searchPat ratPat4 (pyStrip "11".toList) = Option.none from by decide,
      show searchPat ratPat5 (pyStrip "11".toList) = Option.some ['1', '1'] from by decide]
    rw [pyFloatDD, if_pos (by decide),
      show List.takeWhile (fun c => ¬ (c = '.')) ['1', '1'] = ['1', '1'] from by decide,
      show List.dropWhile (fun c => ¬ (c = '.')) ['1', '1'] = ([] : List Char) from by decide]
    norm_num [show digitsVal ['1', '1'] = 11 from by decide,
      show digitsVal ([] : List Char) = 0 from by decide, DataProcessor.rescale,
      Option.map, min_def, max_def]
  · rw [BaseScraper.parse_rating, if_neg (by decide), ratingPats]
    simp only [tryRatingVal,
      show searchPat ratPat1 (pyStrip "11".toList) = Option.none from by decide,
      show searchPat ratPat2 (pyStrip "11".toList) = Option.none from by decide,
      show searchPat ratPat3 (pyStrip "11".toList) = Option.none from by decide,
      show searchPat ratPat4 (pyStrip "11".toList) = Option.none from by decide,
      show searchPat ratPat5 (pyStrip "11".toList) = Option.some ['1', '1'] from by decide]
    rw [pyFloatDD, if_pos (by decide),
      show List.takeWhile (fun c => ¬ (c = '.')) ['1', '1'] = ['1', '1'] from by decide,
      show List.dropWhile (fun c => ¬ (c = '.')) ['1', '1'] = ([] : List Char) from by decide]
    norm_num [show digitsVal ['1', '1'] = 11 from by decide,
      show digitsVal ([] : List Char) = 0 from by decide, BaseScraper.rescale,
      Option.map, min_def]

/-- C8 (amended): the two stages do not implement one shared definition, but
they agree outside the processor-only extensions: prices agree whenever the
stripped, lowered input is not `'free'`, not empty, and the input has no `₹`;
ratings agree whenever the raw matched value is outside the processor's
divide-by-20 window `(10, 100)`. -/
theorem parsers_agree_outside_extensions :
    (∀ s : List Char, ¬ pyLower (pyStrip s) = ['f', 'r', 'e', 'e'] →
        ¬ pyStrip s = [] → ¬ '₹' ∈ s →
        DataProcessor.parse_price s = BaseScraper.parse_price s) ∧
    (∀ s : List Char,
        (∀ v : ℚ, tryRatingVal ratingPats (pyStrip s) = Option.some v →
          v ≤ 10 ∨ 100 ≤ v) →
        DataProcessor.parse_rating s = BaseScraper.parse_rating s) :=
  ⟨parse_price_agree, parse_rating_agree⟩

/-- Witness for C8 (amended): both agreement statements applied at concrete
inputs. -/
theorem parsers_agree_outside_extensions_witness :
    DataProcessor.parse_price "$1".toList = BaseScraper.parse_price "$1".toList ∧
    DataProcessor.parse_rating ['x'] = BaseScraper.parse_rating ['x'] :=
  ⟨parsers_agree_outside_extensions.1 "$1".toList (by decide) (by decide) (by decide),
   parsers_agree_outside_extensions.2 ['x'] fun v hv =>
     Option.noConfusion
       ((show tryRatingVal ratingPats (pyStrip ['x']) = Option.none from by decide)
         ▸ hv)⟩

end WS
